import Mathlib

/-!
Verification of the adaptive-mesh PDE tutorial exercises.

The exercise sources under part1..part4 configure an external adaptive-mesh
engine (quadtree grid, embedded-boundary fractions, implicit diffusion via
multigrid, time-step driver).  Pure per-cell computations present in the
exercise sources are embedded directly; engine components that the exercises
only call (fractions, dtnext, the quadtree refine/coarsen machinery, the
multigrid driver loop, the implicit diffusion solve) are modelled from the
specification, as marked in the doc comment of each such definition.
All real arithmetic is embedded over the rationals.
-/

namespace Tutorial

/-! ## Part 2, Exercise 1 (Ex1_FDCO2.c): explicit time-step choice -/

/-- Domain size `L0 = 5.` set in `main` of Ex1_FDCO2.c. -/
def L0 : ℚ := 5

/-- CO2 diffusivity `D = 1.60e-5` of Ex1_FDCO2.c. -/
def Dco2 : ℚ := 16 / 1000000

/-- Grid spacing of the finest level: `L0/(1 << grid->maxdepth)`. -/
def dxAt (maxdepth : ℕ) : ℚ := L0 / 2 ^ maxdepth

/-- The stability bound computed in the `integration` event:
`DT = sq(L0/(1 << grid->maxdepth))/(4.*D)`. -/
def DTbound (maxdepth : ℕ) : ℚ := (dxAt maxdepth) ^ 2 / (4 * Dco2)

/-- Modelled from the spec: `dtnext` is engine code not in the exercise
sources; the spec states the driver advances time "by a step size chosen to
respect a caller-supplied stability bound ..., clamped to not overshoot any
scheduled output or stop time".  Given the current time `t`, the next
scheduled event or stop time `tnext`, and the caller-supplied bound `dtmax`,
the step actually used is the clamp of the bound to the remaining time. -/
def dtnextModel (t tnext dtmax : ℚ) : ℚ := min dtmax (tnext - t)

/-- The time step actually used by one `integration` event of Ex1_FDCO2.c:
the code sets `DT` to the stability bound at the current finest depth and
then calls `dt = dtnext(dt)`. -/
def usedDt (maxdepth : ℕ) (t tnext : ℚ) : ℚ :=
  dtnextModel t tnext (DTbound maxdepth)

/-! ## Part 4 (Canopy.h `leaf_BC`, Green2D.c `main`): prolongation and
restriction registered for the exercise fields. -/

/-- Values assigned to the four children of a refined cell. -/
structure ChildVals where
  c00 : ℚ
  c10 : ℚ
  c01 : ℚ
  c11 : ℚ
deriving DecidableEq, Repr

/-- Piecewise-constant prolongation (`refine_injection`, registered for
`TV`, `H`, `QE`, `CL` in `leaf_BC` of Canopy.h): every child receives the
parent value exactly. -/
def refine_injection (parent : ℚ) : ChildVals := ⟨parent, parent, parent, parent⟩

/-- Linear prolongation (`refine_linear`, registered for `u.x`, `u.y`, `p`
in `main` of Green2D.c): each child receives the parent value plus a quarter
of the per-direction slope, with signs given by the child quadrant, so the
linear correction has zero mean over the four children. -/
def refine_linear (parent gx gy : ℚ) : ChildVals :=
  ⟨parent - gx / 4 - gy / 4, parent + gx / 4 - gy / 4,
   parent - gx / 4 + gy / 4, parent + gx / 4 + gy / 4⟩

/-- Area-weighted restriction in 2D: the four children of a quadtree cell
have equal area, so the coarsened parent value is their plain average. -/
def restrictionAvg (v : ChildVals) : ℚ := (v.c00 + v.c10 + v.c01 + v.c11) / 4

end Tutorial

namespace Tutorial

/-! ## Embedded geometry fractions (used by Ex3_NW_Vleaf.c `init` and
Canopy.h `leaf_flow`).

The `fractions(phi, cs, fs)` computation is engine code not in the exercise
sources; it is modelled from the spec over one cell with vertex level-set
values `a` (bottom-left), `b` (bottom-right), `c` (top-right),
`d` (top-left).  A vertex is in the fluid when its value is strictly
positive; a vertex value of exactly zero is consistently placed on the
solid side, the fixed tie-break choice that keeps the fraction invariants
(a cell of zero volume fraction has zero face fractions). -/

/-- Modelled from the spec: linear interpolation parameter of the zero
crossing along an edge, measured from the endpoint with value `x` toward
the endpoint with value `y` (used when the two values straddle zero). -/
def cutFrac (x y : ℚ) : ℚ := x / (x - y)

/-- Modelled from the spec: open-length fraction of a face whose endpoint
vertex values are `a` and `b`; fully open when both are positive, fully
closed when neither is, otherwise linear interpolation of the crossing. -/
def edgeFrac (a b : ℚ) : ℚ :=
  if 0 < a then (if 0 < b then 1 else cutFrac a b)
  else (if 0 < b then cutFrac b a else 0)

/-- Modelled from the spec: open-area fraction of the cell, by clipping the
unit cell against the zero-level-set segment reconstructed by linear
interpolation along each sign-changing edge (marching-squares cases:
empty, full, corner triangle, edge trapezoid, pentagon, and the
double-triangle saddle). -/
def cellFrac (a b c d : ℚ) : ℚ :=
  if 0 < a then
    if 0 < b then
      if 0 < c then
        (if 0 < d then 1
         else 1 - cutFrac d a * cutFrac d c / 2)
      else
        (if 0 < d then 1 - cutFrac c b * cutFrac c d / 2
         else (cutFrac a d + cutFrac b c) / 2)
    else
      if 0 < c then
        (if 0 < d then 1 - cutFrac b a * cutFrac b c / 2
         else cutFrac a b * cutFrac a d / 2 + cutFrac c b * cutFrac c d / 2)
      else
        (if 0 < d then (cutFrac a b + cutFrac d c) / 2
         else cutFrac a b * cutFrac a d / 2)
  else
    if 0 < b then
      if 0 < c then
        (if 0 < d then 1 - cutFrac a b * cutFrac a d / 2
         else (cutFrac b a + cutFrac c d) / 2)
      else
        (if 0 < d then cutFrac b a * cutFrac b c / 2 + cutFrac d a * cutFrac d c / 2
         else cutFrac b a * cutFrac b c / 2)
    else
      if 0 < c then
        (if 0 < d then (cutFrac c b + cutFrac d a) / 2
         else cutFrac c b * cutFrac c d / 2)
      else
        (if 0 < d then cutFrac d a * cutFrac d c / 2
         else 0)

/-- On a sign-changing edge, the crossing parameter measured from the
strictly positive endpoint lies in `(0, 1]`. -/
lemma cutFrac_pos_mem {x y : ℚ} (hx : 0 < x) (hy : y ≤ 0) :
    0 < cutFrac x y ∧ cutFrac x y ≤ 1 := by
  have hden : 0 < x - y := by linarith
  constructor
  · exact div_pos hx hden
  · rw [cutFrac, div_le_one hden]; linarith

/-- On a sign-changing edge, the crossing parameter measured from the
non-positive endpoint lies in `[0, 1)`. -/
lemma cutFrac_nonpos_mem {x y : ℚ} (hx : x ≤ 0) (hy : 0 < y) :
    0 ≤ cutFrac x y ∧ cutFrac x y < 1 := by
  have hrw : cutFrac x y = (-x) / (y - x) := by
    rw [cutFrac, ← neg_div_neg_eq, neg_sub]
  have hden : 0 < y - x := by linarith
  rw [hrw]
  constructor
  · exact div_nonneg (by linarith) (le_of_lt hden)
  · rw [div_lt_one hden]; linarith

/-- Every face fraction lies in `[0, 1]`. -/
lemma edgeFrac_mem (a b : ℚ) : 0 ≤ edgeFrac a b ∧ edgeFrac a b ≤ 1 := by
  unfold edgeFrac
  rcases lt_or_le 0 a with ha | ha <;> rcases lt_or_le 0 b with hb | hb <;>
    simp [ha, hb, not_lt.mpr, le_of_lt]
  · exact ⟨le_of_lt (cutFrac_pos_mem ha hb).1, (cutFrac_pos_mem ha hb).2⟩
  · exact ⟨le_of_lt (cutFrac_pos_mem hb ha).1, (cutFrac_pos_mem hb ha).2⟩

/-- A corner triangle area `p·q/2` with `p, q ∈ [0,1]` lies in `[0,1]`. -/
lemma tri_mem {p q : ℚ} (hp0 : 0 ≤ p) (hp1 : p ≤ 1) (hq0 : 0 ≤ q) (hq1 : q ≤ 1) :
    0 ≤ p * q / 2 ∧ p * q / 2 ≤ 1 := by
  constructor
  · positivity
  · nlinarith

/-- A corner triangle cut with both legs in `(0,1]` has area in `(0,1]`. -/
lemma tri_pos_mem {p q : ℚ} (hp0 : 0 < p) (hp1 : p ≤ 1) (hq0 : 0 < q) (hq1 : q ≤ 1) :
    0 < p * q / 2 ∧ p * q / 2 ≤ 1 := by
  constructor
  · positivity
  · nlinarith

/-- An edge trapezoid cut with both heights in `(0,1]` has area in `(0,1]`. -/
lemma trap_mem {p q : ℚ} (hp0 : 0 < p) (hp1 : p ≤ 1) (hq0 : 0 < q) (hq1 : q ≤ 1) :
    0 < (p + q) / 2 ∧ (p + q) / 2 ≤ 1 := by
  constructor <;> linarith

/-- A pentagon cut (full cell minus an outside-corner triangle with legs in
`[0,1)`) has area in `(0,1]`. -/
lemma pent_mem {p q : ℚ} (hp0 : 0 ≤ p) (hp1 : p < 1) (hq0 : 0 ≤ q) (hq1 : q < 1) :
    0 < 1 - p * q / 2 ∧ 1 - p * q / 2 ≤ 1 := by
  constructor <;> nlinarith

/-- A saddle cut (two opposite inside-corner triangles, legs in `(0,1]`)
has area in `(0,1]`. -/
lemma saddle_mem {p q r s : ℚ} (hp0 : 0 < p) (hp1 : p ≤ 1) (hq0 : 0 < q) (hq1 : q ≤ 1)
    (hr0 : 0 < r) (hr1 : r ≤ 1) (hs0 : 0 < s) (hs1 : s ≤ 1) :
    0 < p * q / 2 + r * s / 2 ∧ p * q / 2 + r * s / 2 ≤ 1 := by
  constructor
  · have h1 : 0 < p * q := mul_pos hp0 hq0
    have h2 : 0 < r * s := mul_pos hr0 hs0
    linarith
  · nlinarith

/-- The volume fraction of any cell lies in `[0,1]`, and is strictly
positive as soon as some vertex is strictly in the fluid. -/
lemma cellFrac_mem (a b c d : ℚ) :
    (0 ≤ cellFrac a b c d ∧ cellFrac a b c d ≤ 1) ∧
    ((0 < a ∨ 0 < b ∨ 0 < c ∨ 0 < d) → 0 < cellFrac a b c d) := by
  rcases lt_or_le 0 a with ha | ha <;> rcases lt_or_le 0 b with hb | hb <;>
    rcases lt_or_le 0 c with hc | hc <;> rcases lt_or_le 0 d with hd | hd
  · unfold cellFrac
    rw [if_pos ha, if_pos hb, if_pos hc, if_pos hd]
    exact ⟨⟨by norm_num, le_refl 1⟩, fun _ => by norm_num⟩
  · have q1 := cutFrac_nonpos_mem hd ha
    have q2 := cutFrac_nonpos_mem hd hc
    have m := pent_mem q1.1 q1.2 q2.1 q2.2
    unfold cellFrac
    rw [if_pos ha, if_pos hb, if_pos hc, if_neg (not_lt.mpr hd)]
    exact ⟨⟨le_of_lt m.1, m.2⟩, fun _ => m.1⟩
  · have q1 := cutFrac_nonpos_mem hc hb
    have q2 := cutFrac_nonpos_mem hc hd
    have m := pent_mem q1.1 q1.2 q2.1 q2.2
    unfold cellFrac
    rw [if_pos ha, if_pos hb, if_neg (not_lt.mpr hc), if_pos hd]
    exact ⟨⟨le_of_lt m.1, m.2⟩, fun _ => m.1⟩
  · have q1 := cutFrac_pos_mem ha hd
    have q2 := cutFrac_pos_mem hb hc
    have m := trap_mem q1.1 q1.2 q2.1 q2.2
    unfold cellFrac
    rw [if_pos ha, if_pos hb, if_neg (not_lt.mpr hc), if_neg (not_lt.mpr hd)]
    exact ⟨⟨le_of_lt m.1, m.2⟩, fun _ => m.1⟩
  · have q1 := cutFrac_nonpos_mem hb ha
    have q2 := cutFrac_nonpos_mem hb hc
    have m := pent_mem q1.1 q1.2 q2.1 q2.2
    unfold cellFrac
    rw [if_pos ha, if_neg (not_lt.mpr hb), if_pos hc, if_pos hd]
    exact ⟨⟨le_of_lt m.1, m.2⟩, fun _ => m.1⟩
  · have q1 := cutFrac_pos_mem ha hb
    have q2 := cutFrac_pos_mem ha hd
    have q3 := cutFrac_pos_mem hc hb
    have q4 := cutFrac_pos_mem hc hd
    have m := saddle_mem q1.1 q1.2 q2.1 q2.2 q3.1 q3.2 q4.1 q4.2
    unfold cellFrac
    rw [if_pos ha, if_neg (not_lt.mpr hb), if_pos hc, if_neg (not_lt.mpr hd)]
    exact ⟨⟨le_of_lt m.1, m.2⟩, fun _ => m.1⟩
  · have q1 := cutFrac_pos_mem ha hb
    have q2 := cutFrac_pos_mem hd hc
    have m := trap_mem q1.1 q1.2 q2.1 q2.2
    unfold cellFrac
    rw [if_pos ha, if_neg (not_lt.mpr hb), if_neg (not_lt.mpr hc), if_pos hd]
    exact ⟨⟨le_of_lt m.1, m.2⟩, fun _ => m.1⟩
  · have q1 := cutFrac_pos_mem ha hb
    have q2 := cutFrac_pos_mem ha hd
    have m := tri_pos_mem q1.1 q1.2 q2.1 q2.2
    unfold cellFrac
    rw [if_pos ha, if_neg (not_lt.mpr hb), if_neg (not_lt.mpr hc), if_neg (not_lt.mpr hd)]
    exact ⟨⟨le_of_lt m.1, m.2⟩, fun _ => m.1⟩
  · have q1 := cutFrac_nonpos_mem ha hb
    have q2 := cutFrac_nonpos_mem ha hd
    have m := pent_mem q1.1 q1.2 q2.1 q2.2
    unfold cellFrac
    rw [if_neg (not_lt.mpr ha), if_pos hb, if_pos hc, if_pos hd]
    exact ⟨⟨le_of_lt m.1, m.2⟩, fun _ => m.1⟩
  · have q1 := cutFrac_pos_mem hb ha
    have q2 := cutFrac_pos_mem hc hd
    have m := trap_mem q1.1 q1.2 q2.1 q2.2
    unfold cellFrac
    rw [if_neg (not_lt.mpr ha), if_pos hb, if_pos hc, if_neg (not_lt.mpr hd)]
    exact ⟨⟨le_of_lt m.1, m.2⟩, fun _ => m.1⟩
  · have q1 := cutFrac_pos_mem hb ha
    have q2 := cutFrac_pos_mem hb hc
    have q3 := cutFrac_pos_mem hd ha
    have q4 := cutFrac_pos_mem hd hc
    have m := saddle_mem q1.1 q1.2 q2.1 q2.2 q3.1 q3.2 q4.1 q4.2
    unfold cellFrac
    rw [if_neg (not_lt.mpr ha), if_pos hb, if_neg (not_lt.mpr hc), if_pos hd]
    exact ⟨⟨le_of_lt m.1, m.2⟩, fun _ => m.1⟩
  · have q1 := cutFrac_pos_mem hb ha
    have q2 := cutFrac_pos_mem hb hc
    have m := tri_pos_mem q1.1 q1.2 q2.1 q2.2
    unfold cellFrac
    rw [if_neg (not_lt.mpr ha), if_pos hb, if_neg (not_lt.mpr hc), if_neg (not_lt.mpr hd)]
    exact ⟨⟨le_of_lt m.1, m.2⟩, fun _ => m.1⟩
  · have q1 := cutFrac_pos_mem hc hb
    have q2 := cutFrac_pos_mem hd ha
    have m := trap_mem q1.1 q1.2 q2.1 q2.2
    unfold cellFrac
    rw [if_neg (not_lt.mpr ha), if_neg (not_lt.mpr hb), if_pos hc, if_pos hd]
    exact ⟨⟨le_of_lt m.1, m.2⟩, fun _ => m.1⟩
  · have q1 := cutFrac_pos_mem hc hb
    have q2 := cutFrac_pos_mem hc hd
    have m := tri_pos_mem q1.1 q1.2 q2.1 q2.2
    unfold cellFrac
    rw [if_neg (not_lt.mpr ha), if_neg (not_lt.mpr hb), if_pos hc, if_neg (not_lt.mpr hd)]
    exact ⟨⟨le_of_lt m.1, m.2⟩, fun _ => m.1⟩
  · have q1 := cutFrac_pos_mem hd ha
    have q2 := cutFrac_pos_mem hd hc
    have m := tri_pos_mem q1.1 q1.2 q2.1 q2.2
    unfold cellFrac
    rw [if_neg (not_lt.mpr ha), if_neg (not_lt.mpr hb), if_neg (not_lt.mpr hc), if_pos hd]
    exact ⟨⟨le_of_lt m.1, m.2⟩, fun _ => m.1⟩
  · unfold cellFrac
    rw [if_neg (not_lt.mpr ha), if_neg (not_lt.mpr hb), if_neg (not_lt.mpr hc),
        if_neg (not_lt.mpr hd)]
    refine ⟨⟨le_refl 0, by norm_num⟩, fun h => ?_⟩
    rcases h with h | h | h | h <;> linarith

/-- A face both of whose endpoint vertices are on the solid side is fully
closed. -/
lemma edgeFrac_zero {x y : ℚ} (hx : x ≤ 0) (hy : y ≤ 0) : edgeFrac x y = 0 := by
  unfold edgeFrac
  rw [if_neg (not_lt.mpr hx), if_neg (not_lt.mpr hy)]

/-- Solver statistics returned by the implicit diffusion solve (the
`mgstats` value stored into `mgb` by `tracer_diffusion` in physics.h and
SGS_TKE.h): iteration count, final residual, and a convergence flag. -/
structure MGStats where
  iters : ℕ
  resa : ℚ
  converged : Bool
deriving DecidableEq, Repr

/-- Modelled from the spec: the iteration loop of the Diffusion Solver
(engine code not in the exercise sources).  It repeats V-cycles (an
arbitrary state update `vcycle`) until the residual norm `resid` drops to
the tolerance `tol` or the remaining iteration budget `fuel` is exhausted,
counting the cycles performed in `done`; on exhaustion it returns the
statistics with a non-converged flag and the residual achieved. -/
def mgLoop {σ : Type} (vcycle : σ → σ) (resid : σ → ℚ) (tol : ℚ) :
    ℕ → ℕ → σ → MGStats
  | 0, done, s => ⟨done, resid s, false⟩
  | fuel + 1, done, s =>
    if resid s ≤ tol then ⟨done, resid s, true⟩
    else mgLoop vcycle resid tol fuel (done + 1) (vcycle s)

/-- Modelled from the spec: one implicit diffusion solve with iteration cap
`cap`, starting from solver state `s`. -/
def mgSolve {σ : Type} (vcycle : σ → σ) (resid : σ → ℚ) (tol : ℚ) (cap : ℕ)
    (s : σ) : MGStats :=
  mgLoop vcycle resid tol cap 0 s

/-- The loop either converges with a residual at most the tolerance, or
uses up the whole budget and reports non-convergence together with the
residual it achieved. -/
lemma mgLoop_spec {σ : Type} (vcycle : σ → σ) (resid : σ → ℚ) (tol : ℚ) :
    ∀ (fuel done : ℕ) (s : σ),
      (mgLoop vcycle resid tol fuel done s).converged = true ∧
        (mgLoop vcycle resid tol fuel done s).resa ≤ tol ∨
      (mgLoop vcycle resid tol fuel done s).converged = false ∧
        (mgLoop vcycle resid tol fuel done s).iters = done + fuel ∧
        (mgLoop vcycle resid tol fuel done s).resa = resid (vcycle^[fuel] s) := by
  intro fuel
  induction fuel with
  | zero => intro done s; right; simp [mgLoop]
  | succ n ih =>
    intro done s
    by_cases h : resid s ≤ tol
    · left
      simp [mgLoop, h]
    · have hrec := ih (done + 1) (vcycle s)
      rw [mgLoop, if_neg h]
      rcases hrec with hconv | ⟨hflag, hi, hres⟩
      · exact Or.inl hconv
      · refine Or.inr ⟨hflag, ?_, ?_⟩
        · rw [hi]; omega
        · rw [hres, Function.iterate_succ_apply]

/-! ## Quadtree index: refine / coarsen with 2:1 balance

Modelled from the spec: the Quadtree Index is engine code not in the
exercise sources; the exercises drive it through `refine(...)` predicates
(Ex4_two_spots_solution.c, Ex3_NW_Vleaf.c `init`) and `adapt_wavelet`.
A cell is identified by its level and integer coordinates; its footprint
is the dyadic square `[ix/2^lvl, (ix+1)/2^lvl] x [iy/2^lvl, (iy+1)/2^lvl]`.
Per the spec, a refine or coarsen request that would break the
maximum-depth-difference-of-one rule between neighboring leaves is
rejected (the state is left unchanged). -/

/-- A quadtree cell: refinement level and integer coordinates of its
dyadic square. -/
structure Cell where
  lvl : ℕ
  ix : ℕ
  iy : ℕ
deriving DecidableEq, Repr

/-- The closed dyadic intervals `[i/2^l, (i+1)/2^l]` and
`[j/2^m, (j+1)/2^m]` intersect (stated multiplied out over ℕ). -/
def touch1 (l i m j : ℕ) : Prop :=
  i * 2 ^ m ≤ (j + 1) * 2 ^ l ∧ j * 2 ^ l ≤ (i + 1) * 2 ^ m

instance (l i m j : ℕ) : Decidable (touch1 l i m j) :=
  inferInstanceAs (Decidable (_ ∧ _))

/-- Two distinct cells are neighbors when their closed footprints touch
(in both coordinate directions). -/
def adjacent (a b : Cell) : Prop :=
  a ≠ b ∧ touch1 a.lvl a.ix b.lvl b.ix ∧ touch1 a.lvl a.iy b.lvl b.iy

instance (a b : Cell) : Decidable (adjacent a b) :=
  inferInstanceAs (Decidable (_ ∧ _ ∧ _))

/-- The four children occupying the quadrant decomposition of a cell. -/
def children (c : Cell) : List Cell :=
  [⟨c.lvl + 1, 2 * c.ix, 2 * c.iy⟩, ⟨c.lvl + 1, 2 * c.ix + 1, 2 * c.iy⟩,
   ⟨c.lvl + 1, 2 * c.ix, 2 * c.iy + 1⟩, ⟨c.lvl + 1, 2 * c.ix + 1, 2 * c.iy + 1⟩]

/-- 2:1 balance: every pair of neighboring leaves differs by at most one
refinement level. -/
def balanced (S : Finset Cell) : Prop :=
  ∀ a ∈ S, ∀ b ∈ S, adjacent a b → a.lvl ≤ b.lvl + 1 ∧ b.lvl ≤ a.lvl + 1

instance (S : Finset Cell) : Decidable (balanced S) := by
  unfold balanced; infer_instance

/-- Guard for a refine request: the cell is a leaf and no neighboring leaf
is coarser than it (per the spec, "neighbors more than one level coarser
must be refined first" before a refine can commit). -/
def refineOK (S : Finset Cell) (c : Cell) : Prop :=
  c ∈ S ∧ ∀ b ∈ S, adjacent b c → c.lvl ≤ b.lvl

instance (S : Finset Cell) (c : Cell) : Decidable (refineOK S c) :=
  inferInstanceAs (Decidable (_ ∧ _))

/-- `refine(cell)`: replace the leaf with its four children; a request
that fails the guard is rejected and leaves the grid unchanged. -/
def refine (S : Finset Cell) (c : Cell) : Finset Cell :=
  if refineOK S c then (S.erase c) ∪ (children c).toFinset else S

/-- Guard for a coarsen request: all four children are leaves and no leaf
neighboring a child is more than one level finer than the parent. -/
def coarsenOK (S : Finset Cell) (p : Cell) : Prop :=
  (∀ ch ∈ children p, ch ∈ S) ∧
  ∀ b ∈ S, (∃ ch ∈ children p, adjacent b ch) → b.lvl ≤ p.lvl + 1

instance (S : Finset Cell) (p : Cell) : Decidable (coarsenOK S p) := by
  unfold coarsenOK; infer_instance

/-- `coarsen(parent)`: merge the four children back into the parent; a
request that fails the guard is rejected and leaves the grid unchanged. -/
def coarsen (S : Finset Cell) (p : Cell) : Finset Cell :=
  if coarsenOK S p then (S \ (children p).toFinset) ∪ {p} else S

/-- A refinement or coarsening request. -/
inductive GridOp where
  | refineAt : Cell → GridOp
  | coarsenAt : Cell → GridOp
deriving DecidableEq, Repr

/-- Apply one request to the leaf set. -/
def applyOp (S : Finset Cell) : GridOp → Finset Cell
  | GridOp.refineAt c => refine S c
  | GridOp.coarsenAt p => coarsen S p

/-- Apply a sequence of requests (initialization-time refine predicates
and the per-step `adapt_wavelet` calls both reduce to such sequences). -/
def applyOps (S : Finset Cell) : List GridOp → Finset Cell
  | [] => S
  | op :: rest => applyOps (applyOp S op) rest

/-- A cell's footprint touching a child's footprint touches the parent's
footprint (per coordinate direction). -/
lemma touch1_of_child (e : ℕ) (he : e ≤ 1) {lb ib l i : ℕ}
    (h : touch1 lb ib (l + 1) (2 * i + e)) : touch1 lb ib l i := by
  obtain ⟨h1, h2⟩ := h
  constructor
  · have k1 : ib * 2 ^ l * 2 ≤ (i + 1) * 2 ^ lb * 2 := by
      calc ib * 2 ^ l * 2 = ib * 2 ^ (l + 1) := by rw [pow_succ]; ring
        _ ≤ (2 * i + e + 1) * 2 ^ lb := h1
        _ ≤ ((i + 1) * 2) * 2 ^ lb := mul_le_mul_right' (by omega) _
        _ = (i + 1) * 2 ^ lb * 2 := by ring
    exact Nat.le_of_mul_le_mul_right k1 (by norm_num)
  · have k2 : i * 2 ^ lb * 2 ≤ (ib + 1) * 2 ^ l * 2 := by
      calc i * 2 ^ lb * 2 = (2 * i) * 2 ^ lb := by ring
        _ ≤ (2 * i + e) * 2 ^ lb := mul_le_mul_right' (by omega) _
        _ ≤ (ib + 1) * 2 ^ (l + 1) := h2
        _ = (ib + 1) * 2 ^ l * 2 := by rw [pow_succ]; ring
    exact Nat.le_of_mul_le_mul_right k2 (by norm_num)

/-- A cell's footprint touching a parent's footprint touches the footprint
of one of the two child intervals (per coordinate direction). -/
lemma touch1_to_child {lb ib l i : ℕ} (h : touch1 lb ib l i) :
    touch1 lb ib (l + 1) (2 * i) ∨ touch1 lb ib (l + 1) (2 * i + 1) := by
  obtain ⟨h1, h2⟩ := h
  by_cases hc : ib * 2 ^ (l + 1) ≤ (2 * i + 1) * 2 ^ lb
  · left
    refine ⟨by simpa using hc, ?_⟩
    calc (2 * i) * 2 ^ lb = i * 2 ^ lb * 2 := by ring
      _ ≤ (ib + 1) * 2 ^ l * 2 := mul_le_mul_right' h2 _
      _ = (ib + 1) * 2 ^ (l + 1) := by rw [pow_succ]; ring
  · right
    push_neg at hc
    constructor
    · calc ib * 2 ^ (l + 1) = ib * 2 ^ l * 2 := by rw [pow_succ]; ring
        _ ≤ (i + 1) * 2 ^ lb * 2 := mul_le_mul_right' h1 _
        _ = (2 * i + 1 + 1) * 2 ^ lb := by ring
    · exact le_of_lt (lt_of_lt_of_le hc (mul_le_mul_right' (by omega) _))

/-- Every child sits one level below its parent. -/
lemma child_lvl {p ch : Cell} (h : ch ∈ children p) : ch.lvl = p.lvl + 1 := by
  simp only [children, List.mem_cons, List.mem_singleton, List.not_mem_nil,
    or_false] at h
  rcases h with h | h | h | h <;> subst h <;> rfl

/-- A cell adjacent to a child of `p` (and distinct from `p`) is adjacent
to `p` itself. -/
lemma adjacent_parent_of_child {b p ch : Cell} (hch : ch ∈ children p)
    (hadj : adjacent b ch) (hne : b ≠ p) : adjacent b p := by
  obtain ⟨_, hx, hy⟩ := hadj
  simp only [children, List.mem_cons, List.mem_singleton, List.not_mem_nil,
    or_false] at hch
  rcases hch with h | h | h | h <;> subst h
  · exact ⟨hne, touch1_of_child 0 (by omega) hx, touch1_of_child 0 (by omega) hy⟩
  · exact ⟨hne, touch1_of_child 1 (by omega) hx, touch1_of_child 0 (by omega) hy⟩
  · exact ⟨hne, touch1_of_child 0 (by omega) hx, touch1_of_child 1 (by omega) hy⟩
  · exact ⟨hne, touch1_of_child 1 (by omega) hx, touch1_of_child 1 (by omega) hy⟩

/-- A cell adjacent to `p` that coincides with no child of `p` is adjacent
to some child of `p`. -/
lemma adjacent_child_of_parent {b p : Cell} (hadj : adjacent b p)
    (hne : ∀ ch ∈ children p, b ≠ ch) : ∃ ch ∈ children p, adjacent b ch := by
  obtain ⟨_, hx, hy⟩ := hadj
  rcases touch1_to_child hx with hx1 | hx1 <;> rcases touch1_to_child hy with hy1 | hy1
  · exact ⟨⟨p.lvl + 1, 2 * p.ix, 2 * p.iy⟩, by simp [children],
      hne _ (by simp [children]), hx1, hy1⟩
  · exact ⟨⟨p.lvl + 1, 2 * p.ix, 2 * p.iy + 1⟩, by simp [children],
      hne _ (by simp [children]), hx1, hy1⟩
  · exact ⟨⟨p.lvl + 1, 2 * p.ix + 1, 2 * p.iy⟩, by simp [children],
      hne _ (by simp [children]), hx1, hy1⟩
  · exact ⟨⟨p.lvl + 1, 2 * p.ix + 1, 2 * p.iy + 1⟩, by simp [children],
      hne _ (by simp [children]), hx1, hy1⟩

/-- Neighbor adjacency is symmetric. -/
lemma adjacent_symm {a b : Cell} (h : adjacent a b) : adjacent b a := by
  obtain ⟨hne, hx, hy⟩ := h
  exact ⟨fun he => hne he.symm, ⟨hx.2, hx.1⟩, ⟨hy.2, hy.1⟩⟩

/-- A committed (or rejected) refine request preserves 2:1 balance. -/
lemma balanced_refine {S : Finset Cell} (hb : balanced S) (c : Cell) :
    balanced (refine S c) := by
  unfold refine
  split
  case isFalse => exact hb
  case isTrue hok =>
    obtain ⟨hcS, hguard⟩ := hok
    intro a ha b hbm hadj
    rw [Finset.mem_union] at ha hbm
    have step : ∀ x y : Cell, x ∈ S.erase c → y ∈ (children c).toFinset →
        adjacent x y → x.lvl ≤ y.lvl + 1 ∧ y.lvl ≤ x.lvl + 1 := by
      intro x y hx hy hxy
      rw [Finset.mem_erase] at hx
      rw [List.mem_toFinset] at hy
      have hylvl : y.lvl = c.lvl + 1 := child_lvl hy
      have hxc : adjacent x c := adjacent_parent_of_child hy hxy hx.1
      have h1 : c.lvl ≤ x.lvl := hguard x hx.2 hxc
      have h2 := hb x hx.2 c hcS hxc
      omega
    rcases ha with ha | ha <;> rcases hbm with hbm | hbm
    · exact hb a (Finset.mem_of_mem_erase ha) b (Finset.mem_of_mem_erase hbm) hadj
    · exact step a b ha hbm hadj
    · have := step b a hbm ha (adjacent_symm hadj)
      omega
    · rw [List.mem_toFinset] at ha hbm
      have h1 := child_lvl ha
      have h2 := child_lvl hbm
      omega

/-- A committed (or rejected) coarsen request preserves 2:1 balance. -/
lemma balanced_coarsen {S : Finset Cell} (hb : balanced S) (p : Cell) :
    balanced (coarsen S p) := by
  unfold coarsen
  split
  case isFalse => exact hb
  case isTrue hok =>
    obtain ⟨hchS, hguard⟩ := hok
    intro a ha b hbm hadj
    rw [Finset.mem_union, Finset.mem_singleton] at ha hbm
    have step : ∀ x : Cell, x ∈ S \ (children p).toFinset →
        adjacent x p → x.lvl ≤ p.lvl + 1 ∧ p.lvl ≤ x.lvl + 1 := by
      intro x hx hxp
      rw [Finset.mem_sdiff, List.mem_toFinset] at hx
      have hne : ∀ ch ∈ children p, x ≠ ch := by
        intro ch hch he
        exact hx.2 (he ▸ hch)
      obtain ⟨ch, hch, hxch⟩ := adjacent_child_of_parent hxp hne
      have h1 : x.lvl ≤ p.lvl + 1 := hguard x hx.1 ⟨ch, hch, hxch⟩
      have h2 := hb x hx.1 ch (hchS ch hch) hxch
      have h3 := child_lvl hch
      omega
    rcases ha with ha | ha <;> rcases hbm with hbm | hbm
    · exact hb a (Finset.mem_sdiff.mp ha).1 b (Finset.mem_sdiff.mp hbm).1 hadj
    · subst hbm
      exact step a ha hadj
    · subst ha
      have := step b hbm (adjacent_symm hadj)
      omega
    · subst ha
      subst hbm
      exact absurd rfl hadj.1

/-- Any sequence of (guarded) refine/coarsen requests preserves balance. -/
lemma balanced_applyOps {S : Finset Cell} (hb : balanced S) (ops : List GridOp) :
    balanced (applyOps S ops) := by
  induction ops generalizing S with
  | nil => exact hb
  | cons op rest ih =>
    cases op with
    | refineAt c => exact ih (balanced_refine hb c)
    | coarsenAt p => exact ih (balanced_coarsen hb p)

/-! ## Part 2, Exercise 2 (Ex2_basi.c): one implicit diffusion step, 1D

Modelled from the spec's concrete scenario: a 1D diffusion of a field
initialized to 400 except a 0.1-radius disk held at 1500, advanced by one
implicit (backward-Euler) step.  The implicit solve is engine code not in
the exercise sources; it is modelled as the exact solution of the
backward-Euler linear system on the exercise's grid (64 cells over the 5 m
domain, zero-flux boundaries), computed by exact rational tridiagonal
elimination.  With `dt` chosen by the stability bound `dx^2/(4*D)` the
coupling coefficient is `lam = dt*D/dx^2 = 1/4`. -/

/-- Forward elimination sweep of the tridiagonal solve: rows are
`(diagonal, right-hand side)` pairs, both off-diagonals are `-lam`;
produces the modified `(superdiagonal, right-hand side)` pairs. -/
def sweep (lam : ℚ) : ℚ → ℚ → List (ℚ × ℚ) → List (ℚ × ℚ)
  | _, _, [] => []
  | cp, fp, (bi, fi) :: rest =>
    let den := bi + lam * cp
    let ci := -lam / den
    let gi := (fi + lam * fp) / den
    (ci, gi) :: sweep lam ci gi rest

/-- Back-substitution over the reversed eliminated rows. -/
def backSub : ℚ → List (ℚ × ℚ) → List ℚ
  | _, [] => []
  | unext, (ci, gi) :: rest =>
    let ui := gi - ci * unext
    ui :: backSub ui rest

/-- Exact solve of the tridiagonal system with off-diagonals `-lam`. -/
def thomasSolve (lam : ℚ) (rows : List (ℚ × ℚ)) : List ℚ :=
  (backSub 0 (sweep lam 0 0 rows).reverse).reverse

/-- Rows of the backward-Euler system, built in index order. -/
def rowsAux (lam : ℚ) (n : ℕ) : ℕ → List ℚ → List (ℚ × ℚ)
  | _, [] => []
  | i, fi :: rest =>
    (1 + lam * (if i = 0 ∨ i = n - 1 then 1 else 2), fi) :: rowsAux lam n (i + 1) rest

/-- Rows of the backward-Euler system
`(1 + lam*deg_i) u_i - lam u_(i-1) - lam u_(i+1) = f_i` with zero-flux
boundaries (`deg` = number of in-grid neighbors). -/
def implicitRows (lam : ℚ) (f : List ℚ) : List (ℚ × ℚ) := rowsAux lam f.length 0 f

/-- Modelled from the spec: one exact implicit diffusion step in 1D. -/
def implicitStep1D (lam : ℚ) (u : List ℚ) : List ℚ :=
  thomasSolve lam (implicitRows lam u)

/-- Cell-center coordinate on the 64-cell grid over `[-2.5, 2.5]`
(`L0 = 5`, `N = 1 << 6`, `X0 = -L0/2` from Ex2_basi.c `main`). -/
def cellCenter (i : ℕ) : ℚ := -5/2 + (i + 1/2) * (5/64)

/-- The list `[f 0, ..., f (n-1)]`. -/
def fieldOf (f : ℕ → ℚ) : ℕ → List ℚ
  | 0 => []
  | n + 1 => fieldOf f n ++ [f n]

/-- The scenario's initial field: 400 everywhere except the cells whose
centers lie strictly within 0.1 of the origin (squared distance below
`0.1^2`, as tested by `sqrt(sq(x)) < PIPE_RADIUS` in the source), held at
1500. -/
def initField1D : List ℚ :=
  fieldOf (fun i => if (cellCenter i) ^ 2 < 1/100 then 1500 else 400) 64

/-- Time step from the stability bound of Ex2_basi.c:
`DT = sq(L0/N)/(4.*D)` with `D = 0.1`. -/
def dtEx2 : ℚ := (5/64) ^ 2 / (4 * (1/10))

/-- Coupling coefficient `dt*D/dx^2` of the backward-Euler system. -/
def lamEx2 : ℚ := dtEx2 * (1/10) / (5/64) ^ 2

/-! ## Ex2_basi.c iterations: implicit diffusion then injection

The per-iteration events of Ex2_basi.c on its 64x64 grid over
`[-2.5, 2.5]^2`.  The `injection` event is embedded from the source; the
implicit `Diffusion` event calls the engine's solver, modelled from the
spec relationally: the post-solve field is any field satisfying the
backward-Euler equations for a nonnegative coupling `lam = dt*D/dx^2`
(zero-flux boundaries, so boundary rows only involve in-grid neighbors). -/

/-- A cell of the 64x64 grid. -/
abbrev Idx : Type := Fin 64 × Fin 64

/-- Cells at Manhattan distance one (the 4-point stencil neighborhood). -/
def nbrs (c : Idx) : Finset Idx :=
  Finset.univ.filter (fun d =>
    (((d.1 : ℕ) = (c.1 : ℕ) + 1 ∨ (d.1 : ℕ) + 1 = (c.1 : ℕ)) ∧ d.2 = c.2) ∨
    (((d.2 : ℕ) = (c.2 : ℕ) + 1 ∨ (d.2 : ℕ) + 1 = (c.2 : ℕ)) ∧ d.1 = c.1))

/-- The injection test of Ex2_basi.c (`sqrt(sq(x) + sq(y)) < PIPE_RADIUS`,
written with squared distances): the cell center lies strictly within
0.1 of the origin. -/
def inPipe (c : Idx) : Prop :=
  (cellCenter c.1) ^ 2 + (cellCenter c.2) ^ 2 < (1/10) ^ 2

instance (c : Idx) : Decidable (inPipe c) :=
  inferInstanceAs (Decidable (_ < _))

/-- The `injection` event body of Ex2_basi.c: cells within the pipe radius
are set to 1500, all others are untouched. -/
def injectionEv (u : Idx → ℚ) : Idx → ℚ :=
  fun c => if inPipe c then 1500 else u c

/-- Modelled from the spec: the implicit solve of the `Diffusion` event
relates the pre-field `u` to any post-field `v` satisfying the
backward-Euler equations
`(1 + lam*deg_c) v_c - lam * sum of v over neighbors = u_c`. -/
def IsDiffStep (lam : ℚ) (u v : Idx → ℚ) : Prop :=
  ∀ c, (1 + lam * ((nbrs c).card : ℚ)) * v c - lam * (∑ d ∈ nbrs c, v d) = u c

/-- One full iteration of Ex2_basi.c: the `Diffusion` event (for some
nonnegative coupling, which varies with the adapted finest level) followed
by the `injection` event, in the registration order of the source file. -/
def IterEx2 (u w : Idx → ℚ) : Prop :=
  ∃ lam v, 0 ≤ lam ∧ IsDiffStep lam u v ∧ w = injectionEv v

/-- States reachable after `k` iterations from the `init` field
(`C[] = 400.` everywhere). -/
def ReachEx2 : ℕ → (Idx → ℚ) → Prop
  | 0, w => w = fun _ => 400
  | k + 1, w => ∃ u, ReachEx2 k u ∧ IterEx2 u w

set_option maxRecDepth 4000 in
/-- Discrete maximum principle for one backward-Euler step: any solution
of the implicit equations stays inside the bounds of the previous field. -/
lemma diffStep_bounds {lam : ℚ} (hlam : 0 ≤ lam) {u v : Idx → ℚ}
    (h : IsDiffStep lam u v) {lo hi : ℚ} (hb : ∀ c, lo ≤ u c ∧ u c ≤ hi)
    (c : Idx) : lo ≤ v c ∧ v c ≤ hi := by
  constructor
  · obtain ⟨cm, _, hmin⟩ :=
      Finset.exists_min_image Finset.univ v Finset.univ_nonempty
    have heq := h cm
    have hS : (nbrs cm).card • v cm ≤ ∑ d ∈ nbrs cm, v d :=
      Finset.card_nsmul_le_sum (nbrs cm) v (v cm)
        (fun d _ => hmin d (Finset.mem_univ d))
    rw [nsmul_eq_mul] at hS
    have hu := (hb cm).1
    have key : lo ≤ v cm := by
      nlinarith [mul_nonneg hlam (sub_nonneg.mpr hS)]
    exact le_trans key (hmin c (Finset.mem_univ c))
  · obtain ⟨cm, _, hmax⟩ :=
      Finset.exists_max_image Finset.univ v Finset.univ_nonempty
    have heq := h cm
    have hS : ∑ d ∈ nbrs cm, v d ≤ (nbrs cm).card • v cm :=
      Finset.sum_le_card_nsmul (nbrs cm) v (v cm)
        (fun d _ => hmax d (Finset.mem_univ d))
    rw [nsmul_eq_mul] at hS
    have hu := (hb cm).2
    have key : v cm ≤ hi := by
      nlinarith [mul_nonneg hlam (sub_nonneg.mpr hS)]
    exact le_trans (hmax c (Finset.mem_univ c)) key

/-! ## Ex1_FDCO2.c iteration: injection then explicit integration

The explicit finite-difference update is present in the source
(`integration` event); it is embedded on cells of an unbounded index grid
(the demonstration cell and its stencil lie in the grid interior, where
the update involves no boundary condition). -/

/-- Cell-center coordinate for an integer index on the level-6 grid of
Ex1_FDCO2.c (`L0 = 5`, `X0 = -L0/2`, spacing `5/64`). -/
def cellCenterZ (i : ℤ) : ℚ := -5/2 + ((i : ℚ) + 1/2) * (5/64)

/-- The injection test of Ex1_FDCO2.c, squared form. -/
def inPipeZ (c : ℤ × ℤ) : Prop :=
  (cellCenterZ c.1) ^ 2 + (cellCenterZ c.2) ^ 2 < (1/10) ^ 2

instance (c : ℤ × ℤ) : Decidable (inPipeZ c) :=
  inferInstanceAs (Decidable (_ < _))

/-- The `injection` event body of Ex1_FDCO2.c. -/
def injectionZ (C : ℤ × ℤ → ℚ) : ℤ × ℤ → ℚ :=
  fun c => if inPipeZ c then 1500 else C c

/-- The `integration` event body of Ex1_FDCO2.c: central second
differences `dCx`, `dCy` and the explicit update
`C[] += dt*D*(dCx[] + dCy[])`. -/
def stepFD (dt dx Dq : ℚ) (C : ℤ × ℤ → ℚ) : ℤ × ℤ → ℚ := fun c =>
  let dCx := (C (c.1 + 1, c.2) - 2 * C c + C (c.1 - 1, c.2)) / dx ^ 2
  let dCy := (C (c.1, c.2 + 1) - 2 * C c + C (c.1, c.2 - 1)) / dx ^ 2
  C c + dt * Dq * (dCx + dCy)

/-- One full iteration of Ex1_FDCO2.c in the registration order of the
source file: `injection` first, then `integration` with the stability
time step at the finest level (maxlevel 6). -/
def iterEx1 (C : ℤ × ℤ → ℚ) : ℤ × ℤ → ℚ :=
  stepFD (DTbound 6) (dxAt 6) Dco2 (injectionZ C)

/-! ## Canopy.h `leaf_flow` and physics.h `tracer_diffusion` source terms

Per-cell embedding of the canopy energy-balance event.  The library
transcendentals used only in the `CL > 0` branch (`sqrt`, fractional
`pow`, and the constant `M_PI`) are passed as parameters `sqrtQ`, `powQ`,
`piQ`, keeping the branch structure and the rational arithmetic exact. -/

/-- Stefan-Boltzmann constant `5.67E-8` (Canopy.h). -/
def boltz : ℚ := 567 / 10 ^ 10

/-- Gravitational acceleration `9.81` (Canopy.h). -/
def Gconst : ℚ := 981 / 100

/-- Reference temperature `273.15` (Canopy.h). -/
def T_ref : ℚ := 27315 / 100

/-- Thermal conductivity of air `0.024` (Canopy.h). -/
def Kd : ℚ := 24 / 1000

/-- View factor of sky `0.1`, of ground `VF_s`, of leaves `1 - VF_s`. -/
def VF_s : ℚ := 1 / 10

/-- View factor of ground (Canopy.h `VF_g`). -/
def VF_g : ℚ := VF_s

/-- View factor of surrounding leaves (Canopy.h `VF_l`). -/
def VF_l : ℚ := 1 - VF_s

/-- Emissivity of sky `0.8` (Canopy.h). -/
def eps_s : ℚ := 8 / 10

/-- Emissivity of ground `0.98` (Canopy.h). -/
def eps_g : ℚ := 98 / 100

/-- Emissivity of leaf `0.96` (Canopy.h). -/
def eps_l : ℚ := 96 / 100

/-- Sky temperature `295.15` (Canopy.h). -/
def T_s : ℚ := 29515 / 100

/-- Ground temperature `295.15` (Canopy.h). -/
def T_g : ℚ := 29515 / 100

/-- Leaf heat capacity `2.0E8` (Canopy.h). -/
def Cp_l : ℚ := 2 * 10 ^ 8

/-- Air heat capacity `1005.` (Canopy.h). -/
def Cp_a : ℚ := 1005

/-- Air density `1.27` (Canopy.h). -/
def rho_a : ℚ := 127 / 100

/-- Dynamic viscosity `1.718E-5` (Canopy.h). -/
def dvis : ℚ := 1718 / 10 ^ 8

/-- Kinematic viscosity `dvis / rho_a` (Canopy.h). -/
def vis : ℚ := dvis / rho_a

/-- Leaf radius `4E-1` (Canopy.h). -/
def R_l : ℚ := 4 / 10

/-- Leaf characteristic length `2 * R_l` (Canopy.h). -/
def L_l : ℚ := 2 * R_l

/-- Leaf thickness `2.0E-4` (Canopy.h). -/
def d_l : ℚ := 2 / 10 ^ 4

/-- Leaf surface area `2 * M_PI * sq(R_l)`, with `M_PI` as parameter. -/
def A_l (piQ : ℚ) : ℚ := 2 * piQ * R_l ^ 2

/-- Leaf volume `A_l / 2 * d_l` (Canopy.h). -/
def V_l (piQ : ℚ) : ℚ := A_l piQ / 2 * d_l

/-- Plant area density `PAD(s) = 1.20` (Canopy.h). -/
def PADq : ℚ := 12 / 10

/-- Saturation water vapor concentration `cw_sat = 1.28` (Canopy.h). -/
def cw_sat : ℚ := 128 / 100

/-- Stomatal resistance `rs = 231.` (Canopy.h). -/
def rs : ℚ := 231

/-- The per-cell inputs read by one invocation of `leaf_flow`: the canopy
volume fraction `CL`, buoyancy `b`, velocity components, water vapor `cw`,
current leaf temperature `TV`, and the time step `dt`. -/
structure LeafCellIn where
  CL : ℚ
  b : ℚ
  ux : ℚ
  uy : ℚ
  cw : ℚ
  TV : ℚ
  dt : ℚ
deriving DecidableEq, Repr

/-- The per-cell outputs written by one invocation of `leaf_flow`. -/
structure LeafCellOut where
  Lwnet : ℚ
  H : ℚ
  QE : ℚ
  TV : ℚ
deriving DecidableEq, Repr

/-- Per-cell body of the `leaf_flow` event of Canopy.h (STEP 2 sets
`Lwnet[]` to 0 and overwrites it when `CL[] > 0.`; STEP 3 sets `H[]` and
`QE[]` to 0 and, when `CL[] > 0.`, computes the convective exchange,
advances `TV[]` by forward Euler, and computes the transpiration flux). -/
def leaf_flow_cell (sqrtQ : ℚ → ℚ) (powQ : ℚ → ℚ → ℚ) (piQ : ℚ)
    (cin : LeafCellIn) : LeafCellOut :=
  let Lwnet :=
    if cin.CL > 0 then
      let Lwin := 1/2 * VF_s * eps_s * boltz * T_s ^ 4 +
                  1/2 * VF_g * eps_g * boltz * T_g ^ 4 +
                  1 * VF_l * eps_l * boltz * cin.TV ^ 4
      let Lwout := eps_l * boltz * cin.TV ^ 4
      Lwin - Lwout
    else 0
  if cin.CL > 0 then
    let T_a := cin.b * T_ref / Gconst + T_ref
    let gstar := Gconst * (cin.TV - T_a) / T_a
    let M := sqrtQ (cin.ux ^ 2 + cin.uy ^ 2 + |2 * L_l * gstar|)
    let Re := |M| * L_l / vis
    let Nu := if Re > 20000 then 32/1000 * powQ Re (8/10)
              else 6/10 * powQ Re (5/10)
    let rH := L_l / Nu / Kd * Cp_a * rho_a
    let Hval := Cp_a * rho_a / rH * (cin.TV - T_a)
    let TVnew := cin.TV + cin.dt * (Lwnet - Hval) * A_l piQ / (Cp_l * V_l piQ)
    let QEval := (cw_sat - cin.cw) / (rH + rs)
    ⟨Lwnet, Hval, QEval, TVnew⟩
  else
    ⟨Lwnet, 0, 0, cin.TV⟩

/-- Buoyancy source term of `tracer_diffusion` in physics.h:
`r[] = H[] / (Cp_a * rho_a) * (gCONST / TREF) * PAD(y) * CL[]`. -/
def src_r (cin : LeafCellIn) (Hout : ℚ) : ℚ :=
  Hout / (Cp_a * rho_a) * (Gconst / T_ref) * PADq * cin.CL

/-- Water vapor source term of `tracer_diffusion` in physics.h:
`r_cw[] = QE[] * PAD(y) * CL[]`. -/
def src_rcw (cin : LeafCellIn) (QEout : ℚ) : ℚ :=
  QEout * PADq * cin.CL

/-- Claim C1: in every integration step of Ex1_FDCO2.c, the time step used
to advance `C` never exceeds the stability bound `dx^2/(4*D)` with
`dx = L0/2^maxdepth`, and it is clamped via `dtnext` so that simulation time
does not overshoot the next scheduled event or stop time. -/
theorem C1_stable_clamped_dt (maxdepth : ℕ) (t tnext : ℚ) :
    usedDt maxdepth t tnext ≤ DTbound maxdepth ∧
    t + usedDt maxdepth t tnext ≤ tnext := by
  constructor
  · exact min_le_left _ _
  · have h2 : usedDt maxdepth t tnext ≤ tnext - t := min_le_right _ _
    linarith

/-- Claim C2: for every vertex-sampled level-set field (vertex values
`a, b, c, d` of a cell, in the order bottom-left, bottom-right, top-right,
top-left), the fractions computation yields a volume fraction `cs` in
`[0,1]` and a face fraction `fs` in `[0,1]` on each of the four faces, and
a cell with `cs = 0` has `fs = 0` on all of its faces; this holds for every
invocation of `fractions` (in particular the leaf geometry of
Ex3_NW_Vleaf.c and the canopy geometry of Canopy.h), since it holds for
arbitrary vertex values. -/
theorem C2_fraction_invariants (a b c d : ℚ) :
    (0 ≤ cellFrac a b c d ∧ cellFrac a b c d ≤ 1) ∧
    (0 ≤ edgeFrac a b ∧ edgeFrac a b ≤ 1) ∧
    (0 ≤ edgeFrac b c ∧ edgeFrac b c ≤ 1) ∧
    (0 ≤ edgeFrac d c ∧ edgeFrac d c ≤ 1) ∧
    (0 ≤ edgeFrac a d ∧ edgeFrac a d ≤ 1) ∧
    (cellFrac a b c d = 0 →
      edgeFrac a b = 0 ∧ edgeFrac b c = 0 ∧ edgeFrac d c = 0 ∧ edgeFrac a d = 0) := by
  refine ⟨(cellFrac_mem a b c d).1, edgeFrac_mem a b, edgeFrac_mem b c,
    edgeFrac_mem d c, edgeFrac_mem a d, fun h0 => ?_⟩
  have hall : a ≤ 0 ∧ b ≤ 0 ∧ c ≤ 0 ∧ d ≤ 0 := by
    refine ⟨not_lt.mp fun hp => ?_, not_lt.mp fun hp => ?_,
      not_lt.mp fun hp => ?_, not_lt.mp fun hp => ?_⟩ <;>
      · have := (cellFrac_mem a b c d).2 (by tauto)
        linarith
  obtain ⟨ha, hb, hc, hd⟩ := hall
  exact ⟨edgeFrac_zero ha hb, edgeFrac_zero hb hc, edgeFrac_zero hd hc,
    edgeFrac_zero ha hd⟩

/-- The leaf level set of Ex3_NW_Vleaf.c with `r1 = 1`, `r2 = 5`:
`ELLIPSE (sq(x/r1) + sq(y/r2) - 1.)`; negative inside the solid leaf,
positive in the fluid. -/
def ellipseLS (x y : ℚ) : ℚ := (x / 1) ^ 2 + (y / 5) ^ 2 - 1

/-- Claim C7: for the embedded ellipse with semi-axes `(1, 5)` centered at
the origin, the level set evaluates to exactly zero at the vertex `(1, 0)`;
the fixed tie-break places a zero vertex on the solid ("inside") side — so
the classification is a deterministic function of the exact vertex values,
never left to floating-point chance; witnessed here by the bottom face of
the cell `[1-h,1] x [0,h]` (vertex spacing `h = 15/64`, the finest-level
spacing `120/2^9` of the exercise) being fully closed although one of its
endpoints is the zero vertex.  That cell classifies as a boundary (cut)
cell, `0 < cs < 1`, with `cs` close to 0, and the level set changes sign
across the vertices adjacent to `(1, 0)` along the x-direction. -/
theorem C7_ellipse_zero_vertex_classification :
    ellipseLS 1 0 = 0 ∧
    edgeFrac (ellipseLS (1 - 15/64) 0) (ellipseLS 1 0) = 0 ∧
    ellipseLS (1 - 15/64) 0 < 0 ∧
    0 < ellipseLS (1 + 15/64) 0 ∧
    (0 < cellFrac (ellipseLS (1 - 15/64) 0) (ellipseLS 1 0)
          (ellipseLS 1 (15/64)) (ellipseLS (1 - 15/64) (15/64)) ∧
     cellFrac (ellipseLS (1 - 15/64) 0) (ellipseLS 1 0)
          (ellipseLS 1 (15/64)) (ellipseLS (1 - 15/64) (15/64)) < 1 / 100) := by
  refine ⟨by norm_num [ellipseLS], ?_, by norm_num [ellipseLS], by norm_num [ellipseLS], ?_⟩
  · norm_num [ellipseLS, edgeFrac, cutFrac]
  · norm_num [ellipseLS, cellFrac, cutFrac]

/-- Claim C6: every call to the implicit diffusion solver terminates (the
solve is a total function of its inputs) and returns solver statistics:
either it converged with final residual at most the tolerance, or — when
the multigrid iteration cap is exceeded — the result carries a
non-converged flag together with the residual actually achieved after
`cap` V-cycles, never a silent success; so the caller storing the
statistics (`mgb` in physics.h / SGS_TKE.h) can always decide how to
react. -/
theorem C6_mg_solver_reports_nonconvergence {σ : Type} (vcycle : σ → σ)
    (resid : σ → ℚ) (tol : ℚ) (cap : ℕ) (s : σ) :
    (mgSolve vcycle resid tol cap s).converged = true ∧
      (mgSolve vcycle resid tol cap s).resa ≤ tol ∨
    (mgSolve vcycle resid tol cap s).converged = false ∧
      (mgSolve vcycle resid tol cap s).iters = cap ∧
      (mgSolve vcycle resid tol cap s).resa = resid (vcycle^[cap] s) := by
  have h := mgLoop_spec vcycle resid tol cap 0 s
  simpa [mgSolve] using h

/-- Claim C3: after any sequence of refine and coarsen requests (the
predicate-driven `refine` calls at initialization and every
`adapt_wavelet` call reduce to such sequences; requests that would break
balance are rejected by the guards), every pair of neighboring leaf cells
differs by at most one refinement level. -/
theorem C3_two_to_one_balance (S : Finset Cell) (ops : List GridOp)
    (hS : balanced S) :
    ∀ a ∈ applyOps S ops, ∀ b ∈ applyOps S ops, adjacent a b →
      a.lvl ≤ b.lvl + 1 ∧ b.lvl ≤ a.lvl + 1 :=
  balanced_applyOps hS ops

/-- Witness for C3: from the balanced single-root grid, a refine of the
root, a refine of one of its children, and a coarsen request yield a
balanced grid. -/
theorem C3_two_to_one_balance_witness :
    balanced {(⟨0, 0, 0⟩ : Cell)} ∧
    (∀ a ∈ applyOps {(⟨0, 0, 0⟩ : Cell)}
        [GridOp.refineAt ⟨0, 0, 0⟩, GridOp.refineAt ⟨1, 1, 1⟩,
         GridOp.coarsenAt ⟨1, 1, 1⟩],
      ∀ b ∈ applyOps {(⟨0, 0, 0⟩ : Cell)}
        [GridOp.refineAt ⟨0, 0, 0⟩, GridOp.refineAt ⟨1, 1, 1⟩,
         GridOp.coarsenAt ⟨1, 1, 1⟩],
      adjacent a b → a.lvl ≤ b.lvl + 1 ∧ b.lvl ≤ a.lvl + 1) :=
  ⟨by decide,
   C3_two_to_one_balance {(⟨0, 0, 0⟩ : Cell)}
     [GridOp.refineAt ⟨0, 0, 0⟩, GridOp.refineAt ⟨1, 1, 1⟩,
      GridOp.coarsenAt ⟨1, 1, 1⟩] (by decide)⟩

set_option maxRecDepth 8000 in
set_option maxHeartbeats 4000000 in
/-- Claim C4: for the field initialized to 400 everywhere with the
0.1-radius disk at the center held at 1500, diffusivity `D = 0.1`, and a
time step chosen by the stability bound, after one implicit diffusion step
the field value at the domain edge remains within numerical tolerance
(here `10^-6`; the exact deviation is below `2 * 10^-21`) of 400: the
implicit solve does not propagate the injected perturbation to the
boundary of the 5 m domain in one step. -/
theorem C4_edge_value_stays_400 :
    |(implicitStep1D lamEx2 initField1D).headD 0 - 400| < 1 / 1000000 := by
  have hlam : lamEx2 = 1/4 := by norm_num [lamEx2, dtEx2]
  have hinit : initField1D =
      [400, 400, 400, 400, 400, 400, 400, 400, 400, 400, 400, 400, 400, 400, 400, 400,
       400, 400, 400, 400, 400, 400, 400, 400, 400, 400, 400, 400, 400, 400, 400, 1500,
       1500, 400, 400, 400, 400, 400, 400, 400, 400, 400, 400, 400, 400, 400, 400, 400,
       400, 400, 400, 400, 400, 400, 400, 400, 400, 400, 400, 400, 400, 400, 400, 400] := by
    norm_num [initField1D, fieldOf, cellCenter]
  rw [hlam, hinit]
  norm_num [implicitStep1D, thomasSolve, implicitRows, rowsAux, sweep, backSub, abs_lt]

/-- Claim C5: for a field registered with area-weighted restriction and the
matching prolongation (injection as registered in `leaf_BC`, or linear
refinement as registered in Green2D.c's `main`), refining a cell and then
immediately coarsening it returns exactly the original parent value, for any
field values. -/
theorem C5_refine_coarsen_roundtrip (parent gx gy : ℚ) :
    restrictionAvg (refine_injection parent) = parent ∧
    restrictionAvg (refine_linear parent gx gy) = parent := by
  constructor <;> simp [restrictionAvg, refine_injection, refine_linear] <;> ring

/-- Claim C8: in the implicit-solver CO2 exercise (Ex2_basi.c), the
concentration field stays within `[400, 1500]` in every cell at every
iteration: it starts at 400 everywhere, the injection event only ever sets
cells to 1500, and each backward-Euler diffusion step (no source term)
satisfies a discrete maximum principle, so no reachable state leaves the
interval. -/
theorem C8_concentration_bounds (k : ℕ) (w : Idx → ℚ) (h : ReachEx2 k w) :
    ∀ c, 400 ≤ w c ∧ w c ≤ 1500 := by
  induction k generalizing w with
  | zero =>
    subst h
    intro c
    norm_num
  | succ n ih =>
    obtain ⟨u, hu, lam, v, hlam, hdiff, hw⟩ := h
    have hv := diffStep_bounds hlam hdiff (ih u hu)
    subst hw
    intro c
    unfold injectionEv
    by_cases hc : inPipe c
    · rw [if_pos hc]
      norm_num
    · rw [if_neg hc]
      exact hv c

/-- Witness for C8: the initial state is reachable in zero iterations and
in bounds at the corner cell. -/
theorem C8_concentration_bounds_witness :
    ReachEx2 0 (fun _ => 400) ∧
    (400 ≤ (fun _ : Idx => (400 : ℚ)) (0, 0) ∧
     (fun _ : Idx => (400 : ℚ)) (0, 0) ≤ 1500) :=
  ⟨rfl, C8_concentration_bounds 0 (fun _ => 400) rfl (0, 0)⟩

/-- Claim C9: in Ex2_basi.c the injection event is registered after the
diffusion event, so at the end of every iteration every cell whose center
lies strictly within 0.1 of the origin holds exactly 1500; whereas in
Ex1_FDCO2.c the integration event runs after injection, and the post-step
equality fails there: starting from the uniform 400 field, the cell
`(31, 31)` is inside the pipe radius yet ends the iteration at 950. -/
theorem C9_injection_order (u w : Idx → ℚ) (hiter : IterEx2 u w) :
    (∀ c, inPipe c → w c = 1500) ∧
    (inPipeZ (31, 31) ∧ iterEx1 (fun _ => 400) (31, 31) = 950 ∧
     (950 : ℚ) ≠ 1500) := by
  refine ⟨?_, ?_, ?_, by norm_num⟩
  · obtain ⟨lam, v, _, _, hw⟩ := hiter
    subst hw
    intro c hc
    unfold injectionEv
    rw [if_pos hc]
  · norm_num [inPipeZ, cellCenterZ]
  · norm_num [iterEx1, stepFD, injectionZ, inPipeZ, cellCenterZ, DTbound,
      dxAt, Dco2, L0]

/-- Witness for C9: a concrete iteration of Ex2_basi.c (constant pre-field
400, zero-coupling solve) ends with the pipe cell `(31, 31)` at 1500. -/
theorem C9_injection_order_witness :
    IterEx2 (fun _ => 400) (injectionEv (fun _ => 400)) ∧
    injectionEv (fun _ => 400)
      ((⟨31, by norm_num⟩ : Fin 64), (⟨31, by norm_num⟩ : Fin 64)) = 1500 := by
  have hstep : IterEx2 (fun _ => 400) (injectionEv (fun _ => 400)) :=
    ⟨0, fun _ => 400, le_refl 0, fun c => by ring, rfl⟩
  refine ⟨hstep, ?_⟩
  have hin : inPipe ((⟨31, by norm_num⟩ : Fin 64), (⟨31, by norm_num⟩ : Fin 64)) := by
    norm_num [inPipe, cellCenter]
  exact (C9_injection_order _ _ hstep).1 _ hin

/-- Claim C10: every invocation of the canopy energy-balance event writes
`Lwnet`, `H` and `QE` to exactly 0 in every cell whose canopy volume
fraction `CL` is not positive, and leaves the leaf temperature `TV`
unchanged in those cells (only `CL > 0` cells take the temperature-update
branch), so the canopy source terms `r` and `r_cw` fed into the buoyancy
and water-vapor diffusion solves of physics.h vanish there — for any
transcendental implementations `sqrtQ`, `powQ`, `piQ` and any cell data. -/
theorem C10_canopy_fluxes_vanish_outside (sqrtQ : ℚ → ℚ) (powQ : ℚ → ℚ → ℚ)
    (piQ : ℚ) (cin : LeafCellIn) (h : cin.CL ≤ 0) :
    (leaf_flow_cell sqrtQ powQ piQ cin).Lwnet = 0 ∧
    (leaf_flow_cell sqrtQ powQ piQ cin).H = 0 ∧
    (leaf_flow_cell sqrtQ powQ piQ cin).QE = 0 ∧
    (leaf_flow_cell sqrtQ powQ piQ cin).TV = cin.TV ∧
    src_r cin (leaf_flow_cell sqrtQ powQ piQ cin).H = 0 ∧
    src_rcw cin (leaf_flow_cell sqrtQ powQ piQ cin).QE = 0 := by
  have hn : ¬ cin.CL > 0 := not_lt.mpr h
  simp [leaf_flow_cell, hn, src_r, src_rcw]

/-- Witness for C10 at a concrete out-of-canopy cell. -/
theorem C10_canopy_fluxes_vanish_outside_witness :
    (0 : ℚ) ≤ 0 ∧
    (leaf_flow_cell (fun _ => 0) (fun _ _ => 0) 3
        ⟨0, 0, 0, 0, 0, 300, 1⟩).TV = (300 : ℚ) :=
  ⟨le_refl 0,
   (C10_canopy_fluxes_vanish_outside (fun _ => 0) (fun _ _ => 0) 3
      ⟨0, 0, 0, 0, 0, 300, 1⟩ (le_refl 0)).2.2.2.1⟩

end Tutorial
